import Mathlib

/-!
# Mesh_Interpolation.c : bilinear scatter deposition onto a regular grid

Shallow embedding of `src/Mesh_Interpolation.c`.

Modelling conventions.
* `double` values are exact rationals (`ℚ`): every finite double is a rational,
  and the arithmetic is carried out without rounding.
* The `int` arithmetic of `interpolation` (lines 44-86: buffer sizes, slice
  offsets, node indices, loop bounds) is 32-bit two's complement: every sum,
  difference and product is reduced by `wrap32`.
* A heap buffer is a `List ℚ`; every indexed read and write is checked and
  returns `none` when the index is outside the buffer.  An allocation whose
  count is not positive yields a buffer without cells.
* The OpenMP parallel region is modelled by an execution trace, a list of
  events.  `Event.deposit tid i` is thread `tid` running iteration `i` of the
  deposition loop (lines 55-80); `Event.merge tid j` is thread `tid` running
  iteration `j` of the merge loop (lines 84-88), its inner loop over `k` taken
  as one step.  The deposition loop carries
  `nowait` (line 54), so there is no barrier between the two loops: a thread
  that has no deposition iteration left goes on to its merge iterations while
  other threads are still depositing.  A trace may therefore interleave merge
  events of one thread with deposit events of another; within one thread the
  deposit events come first and each loop runs in increasing index order
  (`validTrace`).
-/

namespace MeshInterpolation

/-- The `Points` record of the source: one 2D sample. -/
structure Points where
  x : ℚ
  y : ℚ
  deriving DecidableEq, Repr

/-- The global variables of the source that `interpolation` reads. -/
structure Globals where
  GRID_X : Int
  GRID_Y : Int
  NX : Int
  NY : Int
  NTHR_C : Int
  dx : ℚ
  dy : ℚ
  deriving DecidableEq, Repr

/-- The globals as `main` leaves them before the iteration loop (lines
113-131): `NX`, `NY` come from the file header and `NTHR_C` from the command
line, and `GRID_X = NX + 1`, `GRID_Y = NY + 1`, `dx = 1.0 / NX`,
`dy = 1.0 / NY`.  The two sums are not reduced to 32 bits here; the theorems on
`interpolation` assume headers for which they stay inside the `int` range. -/
def mainGlobals (NX NY NTHR_C : Int) : Globals :=
  { GRID_X := NX + 1
    GRID_Y := NY + 1
    NX := NX
    NY := NY
    NTHR_C := NTHR_C
    dx := 1 / (NX : ℚ)
    dy := 1 / (NY : ℚ) }

/-- Smallest value of a 32-bit `int`. -/
def INT_MIN : Int := -2147483648

/-- Largest value of a 32-bit `int`. -/
def INT_MAX : Int := 2147483647

/-- Reduction of an integer to the 32-bit two's complement range. -/
def wrap32 (z : Int) : Int := (z + 2147483648) % 4294967296 - 2147483648

/-- The `int` sum `a + b`. -/
def iadd (a b : Int) : Int := wrap32 (a + b)

/-- The `int` difference `a - b`. -/
def isub (a b : Int) : Int := wrap32 (a - b)

/-- The `int` product `a * b`. -/
def imul (a b : Int) : Int := wrap32 (a * b)

/-- The C conversion `(int) q`: truncation toward zero (the quotient of the
numerator by the denominator, rounded toward zero).  When the truncated value
does not fit an `int` the result is `INT_MIN`, as the x86-64 conversion
instruction returns. -/
def toInt (q : ℚ) : Int :=
  if INT_MIN ≤ Int.tdiv q.num (q.den : Int) ∧ Int.tdiv q.num (q.den : Int) ≤ INT_MAX then
    Int.tdiv q.num (q.den : Int)
  else INT_MIN

/-- Checked `buf[i] += v`. -/
def addAt (buf : List ℚ) (i : Int) (v : ℚ) : Option (List ℚ) :=
  if 0 ≤ i ∧ i < (buf.length : Int) then
    some (buf.set i.toNat (buf.getD i.toNat 0 + v))
  else none

/-- Checked read `buf[i]`. -/
def readAt (buf : List ℚ) (i : Int) : Option ℚ :=
  if 0 ≤ i ∧ i < (buf.length : Int) then some (buf.getD i.toNat 0) else none

/-- The call `calloc(n, sizeof(double))`: `n` zeroed cells, none when `n ≤ 0`
(a negative `int` count converts to a size no allocation can satisfy). -/
def calloc (n : Int) : List ℚ := List.replicate n.toNat 0

/-- The call `memset(buf, 0, n * sizeof(double))`: zero the first `n` cells. -/
def memsetZero (buf : List ℚ) (n : Int) : Option (List ℚ) :=
  if 0 ≤ n ∧ n ≤ (buf.length : Int) then
    some (List.replicate n.toNat 0 ++ buf.drop n.toNat)
  else none

/-- Line 59: `gx = (int)(px / dx)`. -/
def cellX (G : Globals) (pt : Points) : Int := toInt (pt.x / G.dx)

/-- Line 60: `gy = (int)(py / dy)`. -/
def cellY (G : Globals) (pt : Points) : Int := toInt (pt.y / G.dy)

/-- Line 61: the condition under which the loop body executes `continue`. -/
def skipped (G : Globals) (pt : Points) : Prop :=
  cellX G pt < 0 ∨ cellX G pt ≥ isub G.NX 1 ∨ cellY G pt < 0 ∨ cellY G pt ≥ isub G.NY 1

instance (G : Globals) (pt : Points) : Decidable (skipped G pt) := by
  unfold skipped; infer_instance

/-- Line 63: `lx = px - gx * dx`. -/
def localX (G : Globals) (pt : Points) : ℚ := pt.x - (cellX G pt : ℚ) * G.dx

/-- Line 64: `ly = py - gy * dy`. -/
def localY (G : Globals) (pt : Points) : ℚ := pt.y - (cellY G pt : ℚ) * G.dy

/-- Line 66: `p1 = gy * GRID_X + gx`. -/
def p1 (G : Globals) (pt : Points) : Int :=
  iadd (imul (cellY G pt) G.GRID_X) (cellX G pt)

/-- Line 67: `p2 = gy * GRID_X + (gx + 1)`. -/
def p2 (G : Globals) (pt : Points) : Int :=
  iadd (imul (cellY G pt) G.GRID_X) (iadd (cellX G pt) 1)

/-- Line 68: `p3 = (gy + 1) * GRID_X + gx`. -/
def p3 (G : Globals) (pt : Points) : Int :=
  iadd (imul (iadd (cellY G pt) 1) G.GRID_X) (cellX G pt)

/-- Line 69: `p4 = (gy + 1) * GRID_X + (gx + 1)`. -/
def p4 (G : Globals) (pt : Points) : Int :=
  iadd (imul (iadd (cellY G pt) 1) G.GRID_X) (iadd (cellX G pt) 1)

/-- Line 71: `a1 = (dx - lx) * (dy - ly)`. -/
def a1 (G : Globals) (pt : Points) : ℚ := (G.dx - localX G pt) * (G.dy - localY G pt)

/-- Line 72: `a2 = lx * (dy - ly)`. -/
def a2 (G : Globals) (pt : Points) : ℚ := localX G pt * (G.dy - localY G pt)

/-- Line 73: `a3 = (dx - lx) * ly`. -/
def a3 (G : Globals) (pt : Points) : ℚ := (G.dx - localX G pt) * localY G pt

/-- Line 74: `a4 = lx * ly`. -/
def a4 (G : Globals) (pt : Points) : ℚ := localX G pt * localY G pt

/-- Line 57: `weighing = 1.0`. -/
def weighing : ℚ := 1

/-- Line 52: the offset of thread `tid`'s slice, `tid * GRID_X * GRID_Y`. -/
def sliceOffset (G : Globals) (tid : Int) : Int := imul (imul tid G.GRID_X) G.GRID_Y

/-- One iteration of the deposition loop (lines 56-79), run by thread `tid`,
whose `localMesh` is `&privateMesh[tid * GRID_X * GRID_Y]`. -/
def depositPoint (G : Globals) (tid : Int) (privateMesh : List ℚ) (pt : Points) :
    Option (List ℚ) :=
  if skipped G pt then some privateMesh
  else
    let localMesh := sliceOffset G tid
    (addAt privateMesh (localMesh + p1 G pt) (a1 G pt * weighing)).bind fun m1 =>
    (addAt m1 (localMesh + p2 G pt) (a2 G pt * weighing)).bind fun m2 =>
    (addAt m2 (localMesh + p3 G pt) (a3 G pt * weighing)).bind fun m3 =>
    addAt m3 (localMesh + p4 G pt) (a4 G pt * weighing)

/-- One iteration `j` of the merge loop: the inner loop (lines 85-87) over the
thread ids `ks`, adding `privateMesh[k * GRID_X * GRID_Y + j]` to
`meshValue[j]`. -/
def mergeNode (G : Globals) (privateMesh : List ℚ) (j : Int) :
    List Nat → List ℚ → Option (List ℚ)
  | [], meshValue => some meshValue
  | k :: ks, meshValue =>
    (readAt privateMesh (iadd (sliceOffset G (k : Int)) j)).bind fun v =>
    (addAt meshValue j v).bind (mergeNode G privateMesh j ks)

/-- One loop iteration executed by one thread of the parallel region. -/
inductive Event where
  | deposit (tid : Int) (i : Nat)
  | merge (tid : Int) (j : Nat)
  deriving DecidableEq, Repr

/-- The effect of one event on the pair (`privateMesh`, `meshValue`). -/
def step (G : Globals) (points : List Points) (s : List ℚ × List ℚ) :
    Event → Option (List ℚ × List ℚ)
  | Event.deposit tid i =>
    (points[i]?).bind fun pt =>
    (depositPoint G tid s.1 pt).bind fun priv => some (priv, s.2)
  | Event.merge _ j =>
    (mergeNode G s.1 (j : Int) (List.range G.NTHR_C.toNat) s.2).bind fun mesh =>
    some (s.1, mesh)

/-- The parallel region (lines 49-89) run along a trace of events. -/
def runTrace (G : Globals) (points : List Points) :
    List Event → List ℚ × List ℚ → Option (List ℚ × List ℚ)
  | [], s => some s
  | e :: es, s => (step G points s e).bind (runTrace G points es)

/-- The function `interpolation` (lines 43-92) executed along `trace`; the
batch `points` has `NUM_Points = points.length` entries. -/
def interpolation (G : Globals) (trace : List Event) (meshValue : List ℚ)
    (points : List Points) : Option (List ℚ) :=
  (memsetZero meshValue (imul G.GRID_X G.GRID_Y)).bind fun mesh0 =>
  (runTrace G points trace (calloc (imul (imul G.GRID_X G.GRID_Y) G.NTHR_C), mesh0)).bind
    fun s => some s.2

/-- An execution with merge after deposition: iteration `i` of the deposition
loop is run by thread `sched i`, iteration `j` of the merge loop by thread
`msched j`, and every merge iteration comes after every deposition iteration. -/
def barrierTrace (sched msched : Nat → Int) (numPoints numNodes : Nat) : List Event :=
  ((List.range numPoints).map fun (i : Nat) => Event.deposit (sched i) i) ++
    ((List.range numNodes).map fun (j : Nat) => Event.merge (msched j) j)

/-- The execution with one thread: thread 0 runs the deposition loop and then
the merge loop, each in index order. -/
def singleThreadTrace (numPoints numNodes : Nat) : List Event :=
  barrierTrace (fun _ => 0) (fun _ => 0) numPoints numNodes

/-- The thread that executes an event. -/
def Event.thread : Event → Int
  | Event.deposit tid _ => tid
  | Event.merge tid _ => tid

/-- Deposition-loop indices of a trace, in trace order. -/
def depositIndices : List Event → List Nat
  | [] => []
  | Event.deposit _ i :: es => i :: depositIndices es
  | Event.merge _ _ :: es => depositIndices es

/-- Merge-loop indices of a trace, in trace order. -/
def mergeIndices : List Event → List Nat
  | [] => []
  | Event.deposit _ _ :: es => mergeIndices es
  | Event.merge _ j :: es => j :: mergeIndices es

/-- Whether event `e` may come before event `f` in the trace: events of
different threads are unordered; within a thread deposits precede merges and
each loop runs in increasing index order; deposit iterations of one chunk of
1000 (line 54) belong to one thread. -/
def mayPrecede : Event → Event → Bool
  | Event.deposit t i, Event.deposit u k =>
    if t = u then decide (i < k) else decide (i / 1000 ≠ k / 1000)
  | Event.deposit _ _, Event.merge _ _ => true
  | Event.merge t _, Event.deposit u _ => decide (t ≠ u)
  | Event.merge t j, Event.merge u k => if t = u then decide (j < k) else true

/-- Every pair of events of the trace is in an admissible order. -/
def programOrder : List Event → Bool
  | [] => true
  | e :: es => es.all (mayPrecede e) && programOrder es

/-- A trace is an execution of the parallel region on a batch of `numPoints`
points: every thread id is below `NTHR_C`, every deposition index and every
merge index occurs exactly once, and the order is admissible. -/
def validTrace (G : Globals) (numPoints : Nat) (trace : List Event) : Bool :=
  trace.all (fun e => decide (0 ≤ e.thread ∧ e.thread < G.NTHR_C)) &&
  (depositIndices trace).isPerm (List.range numPoints) &&
  (mergeIndices trace).isPerm (List.range (imul G.GRID_X G.GRID_Y).toNat) &&
  programOrder trace

/-- An execution with two threads that the missing barrier allows: thread 1
takes every chunk of the deposition loop; thread 0, left without a deposition
iteration, runs its share of the merge loop (nodes below `split`) at once; then
thread 1 deposits and runs its own share of the merge loop. -/
def earlyMergeTrace (numPoints split numNodes : Nat) : List Event :=
  ((List.range split).map fun (j : Nat) => Event.merge 0 j) ++
  ((List.range numPoints).map fun (i : Nat) => Event.deposit 1 i) ++
  ((List.range' split (numNodes - split)).map fun (j : Nat) => Event.merge 1 j)

/-- Row-major index of node `(row, col)`. -/
def node (G : Globals) (row col : Int) : Int := row * G.GRID_X + col

/-- Value at index `j` of a buffer (zero outside it). -/
def valueAt (buf : List ℚ) (j : Int) : ℚ :=
  if 0 ≤ j then buf.getD j.toNat 0 else 0

/-- The amount one point adds to flat node index `j` of a thread's mesh: the
corner weights of the point whose target index is `j`, nothing when the point
is skipped. -/
def pointContribution (G : Globals) (pt : Points) (j : Int) : ℚ :=
  if skipped G pt then 0
  else
    (if j = p1 G pt then a1 G pt else 0) + (if j = p2 G pt then a2 G pt else 0) +
    (if j = p3 G pt then a3 G pt else 0) + (if j = p4 G pt then a4 G pt else 0)

/-- Sum over a batch of the contributions to node index `j`. -/
def batchContribution (G : Globals) (points : List Points) (j : Int) : ℚ :=
  (points.map fun pt => pointContribution G pt j).sum

/-- The mesh the batch determines: node `j` holds the batch contribution to `j`. -/
def expectedMesh (G : Globals) (points : List Points) : List ℚ :=
  (List.range (G.GRID_X * G.GRID_Y).toNat).map fun (j : Nat) =>
    batchContribution G points (j : Int)

/-- Sum over the thread slices of `privateMesh` at node `j`. -/
def threadSum (G : Globals) (privateMesh : List ℚ) (ks : List Nat) (j : Int) : ℚ :=
  (ks.map fun (k : Nat) => valueAt privateMesh ((k : Int) * G.GRID_X * G.GRID_Y + j)).sum

/-- The globals are those `main` derives from a header with at least one cell
per direction, at least one thread, and a private buffer whose cell count fits
an `int`. -/
structure Fits (G : Globals) : Prop where
  hX : G.GRID_X = G.NX + 1
  hY : G.GRID_Y = G.NY + 1
  hNX : 1 ≤ G.NX
  hNY : 1 ≤ G.NY
  hT : 1 ≤ G.NTHR_C
  hsize : G.GRID_X * G.GRID_Y * G.NTHR_C ≤ 2147483647

/-! ## Buffer lemmas -/

theorem valueAt_of_length_le (buf : List ℚ) (j : Int) (h : (buf.length : Int) ≤ j) :
    valueAt buf j = 0 := by
  unfold valueAt
  split
  · rename_i h0
    have : buf.length ≤ j.toNat := by omega
    simp [List.getD_eq_getElem?_getD, List.getElem?_eq_none this]
  · rfl

theorem valueAt_set (buf : List ℚ) (i : Nat) (v : ℚ) (j : Int) (hi : i < buf.length) :
    valueAt (buf.set i v) j = if j = (i : Int) then v else valueAt buf j := by
  unfold valueAt
  by_cases h0 : 0 ≤ j
  · simp only [h0, if_true]
    by_cases hji : j = (i : Int)
    · subst hji
      simp [List.getD_eq_getElem?_getD, List.getElem?_set, hi]
    · have hne : i ≠ j.toNat := by omega
      simp [List.getD_eq_getElem?_getD, List.getElem?_set, hne, hji]
  · have hji : j ≠ (i : Int) := by omega
    simp [h0, hji]

theorem addAt_spec (buf : List ℚ) (i : Int) (v : ℚ) (h0 : 0 ≤ i)
    (h1 : i < (buf.length : Int)) :
    ∃ m, addAt buf i v = some m ∧ m.length = buf.length ∧
      ∀ j, valueAt m j = valueAt buf j + if j = i then v else 0 := by
  refine ⟨buf.set i.toNat (buf.getD i.toNat 0 + v), by simp [addAt, h0, h1], by simp, ?_⟩
  intro j
  have hi : i.toNat < buf.length := by omega
  rw [valueAt_set _ _ _ _ hi]
  have hcast : ((i.toNat : Nat) : Int) = i := Int.toNat_of_nonneg h0
  rw [hcast]
  by_cases hji : j = i
  · subst hji
    simp [valueAt, h0]
  · simp [hji]

theorem readAt_spec (buf : List ℚ) (i : Int) (h0 : 0 ≤ i) (h1 : i < (buf.length : Int)) :
    readAt buf i = some (valueAt buf i) := by
  simp [readAt, valueAt, h0, h1]

theorem valueAt_calloc (n j : Int) : valueAt (calloc n) j = 0 := by
  unfold valueAt calloc
  split
  · simp [List.getD_eq_getElem?_getD, List.getElem?_replicate]
    split <;> simp
  · rfl

/-! ## 32-bit arithmetic inside the `int` range -/

theorem wrap32_eq (z : Int) (h0 : -2147483648 ≤ z) (h1 : z ≤ 2147483647) : wrap32 z = z := by
  unfold wrap32
  omega

theorem iadd_eq (a b : Int) (h0 : 0 ≤ a + b) (h1 : a + b ≤ 2147483647) : iadd a b = a + b :=
  wrap32_eq _ (by omega) h1

theorem isub_eq (a b : Int) (h0 : 0 ≤ a - b) (h1 : a - b ≤ 2147483647) : isub a b = a - b :=
  wrap32_eq _ (by omega) h1

theorem imul_eq (a b : Int) (h0 : 0 ≤ a * b) (h1 : a * b ≤ 2147483647) : imul a b = a * b :=
  wrap32_eq _ (by omega) h1

theorem Fits.gridX_ge {G : Globals} (h : Fits G) : 2 ≤ G.GRID_X := by
  have := h.hX; have := h.hNX; omega

theorem Fits.gridY_ge {G : Globals} (h : Fits G) : 2 ≤ G.GRID_Y := by
  have := h.hY; have := h.hNY; omega

theorem Fits.nodes_le {G : Globals} (h : Fits G) : G.GRID_X * G.GRID_Y ≤ 2147483647 := by
  have h1 := h.gridX_ge
  have h2 := h.gridY_ge
  have h3 := h.hT
  have h4 := h.hsize
  have h5 : 0 ≤ G.GRID_X * G.GRID_Y := by positivity
  nlinarith

theorem Fits.nodes_pos {G : Globals} (h : Fits G) : 0 < G.GRID_X * G.GRID_Y := by
  have h1 := h.gridX_ge
  have h2 := h.gridY_ge
  positivity

theorem Fits.gridX_le_nodes {G : Globals} (h : Fits G) : G.GRID_X ≤ G.GRID_X * G.GRID_Y := by
  have h1 := h.gridX_ge
  have h2 := h.gridY_ge
  nlinarith

theorem Fits.gridY_le_nodes {G : Globals} (h : Fits G) : G.GRID_Y ≤ G.GRID_X * G.GRID_Y := by
  have h1 := h.gridX_ge
  have h2 := h.gridY_ge
  nlinarith

theorem Fits.imul_grid {G : Globals} (h : Fits G) :
    imul G.GRID_X G.GRID_Y = G.GRID_X * G.GRID_Y :=
  imul_eq _ _ (le_of_lt h.nodes_pos) h.nodes_le

theorem Fits.imul_size {G : Globals} (h : Fits G) :
    imul (imul G.GRID_X G.GRID_Y) G.NTHR_C = G.GRID_X * G.GRID_Y * G.NTHR_C := by
  rw [h.imul_grid]
  have h1 := h.nodes_pos
  have h2 := h.hT
  exact imul_eq _ _ (by positivity) h.hsize

theorem Fits.sliceOffset_eq {G : Globals} (h : Fits G) (tid : Int) (ht0 : 0 ≤ tid)
    (ht1 : tid < G.NTHR_C) : sliceOffset G tid = tid * G.GRID_X * G.GRID_Y := by
  have h1 := h.gridX_ge
  have h2 := h.gridY_ge
  have h3 := h.hsize
  have hS := h.nodes_pos
  have e : tid * G.GRID_X * G.GRID_Y = tid * (G.GRID_X * G.GRID_Y) := by ring
  have b2 : tid * G.GRID_X * G.GRID_Y ≤ 2147483647 := by
    rw [e]; nlinarith
  have b1 : tid * G.GRID_X ≤ tid * G.GRID_X * G.GRID_Y := by
    have : 0 ≤ tid * G.GRID_X := by positivity
    nlinarith
  unfold sliceOffset
  rw [imul_eq tid G.GRID_X (by positivity) (by omega)]
  exact imul_eq _ _ (by positivity) b2

theorem Fits.isub_NX {G : Globals} (h : Fits G) : isub G.NX 1 = G.NX - 1 := by
  have h1 := h.hX
  have h2 := h.gridX_le_nodes
  have h3 := h.nodes_le
  have h4 := h.hNX
  exact isub_eq _ _ (by omega) (by omega)

theorem Fits.isub_NY {G : Globals} (h : Fits G) : isub G.NY 1 = G.NY - 1 := by
  have h1 := h.hY
  have h2 := h.gridX_ge
  have h3 := h.nodes_le
  have h4 := h.hNY
  have h5 := h.gridY_ge
  have : G.GRID_Y ≤ G.GRID_X * G.GRID_Y := by nlinarith
  exact isub_eq _ _ (by omega) (by omega)

/-! ## Index arithmetic -/

theorem node_index_bounds (NX NY r c : Int) (hr0 : 0 ≤ r) (hr1 : r ≤ NY)
    (hc0 : 0 ≤ c) (hc1 : c ≤ NX) :
    0 ≤ r * (NX + 1) + c ∧ r * (NX + 1) + c < (NX + 1) * (NY + 1) := by
  constructor
  · nlinarith
  · nlinarith

theorem slice_index_bounds (S T tid p : Int) (hp0 : 0 ≤ p) (hp1 : p < S)
    (ht0 : 0 ≤ tid) (ht1 : tid < T) :
    0 ≤ tid * S + p ∧ tid * S + p < S * T := by
  constructor
  · nlinarith
  · nlinarith

theorem slice_index_unique (S k tid j p : Int) (hj0 : 0 ≤ j) (hj1 : j < S)
    (hp0 : 0 ≤ p) (hp1 : p < S) :
    k * S + j - tid * S = p ↔ k = tid ∧ j = p := by
  constructor
  · intro h
    have hk : k = tid := by
      by_contra hne
      rcases lt_or_gt_of_ne hne with hlt | hgt
      · nlinarith
      · nlinarith
    subst hk
    exact ⟨rfl, by linarith⟩
  · rintro ⟨rfl, rfl⟩
    ring

theorem not_skipped_iff (G : Globals) (h : Fits G) (pt : Points) :
    ¬ skipped G pt ↔
      0 ≤ cellX G pt ∧ cellX G pt < G.NX - 1 ∧ 0 ≤ cellY G pt ∧ cellY G pt < G.NY - 1 := by
  unfold skipped
  rw [h.isub_NX, h.isub_NY]
  constructor
  · intro hn
    refine ⟨?_, ?_, ?_, ?_⟩ <;> by_contra hc <;> apply hn <;> omega
  · rintro ⟨h1, h2, h3, h4⟩ hn
    omega

/-- For a deposited point the four `int` index computations do not wrap. -/
theorem corner_eq (G : Globals) (h : Fits G) (pt : Points) (hns : ¬ skipped G pt) :
    p1 G pt = cellY G pt * G.GRID_X + cellX G pt ∧
    p2 G pt = cellY G pt * G.GRID_X + (cellX G pt + 1) ∧
    p3 G pt = (cellY G pt + 1) * G.GRID_X + cellX G pt ∧
    p4 G pt = (cellY G pt + 1) * G.GRID_X + (cellX G pt + 1) := by
  obtain ⟨hx0, hx1, hy0, hy1⟩ := (not_skipped_iff G h pt).1 hns
  have hX := h.hX
  have hY := h.hY
  have hS := h.nodes_le
  have hGX := h.gridX_ge
  have hGY := h.gridY_le_nodes
  have r1 : cellY G pt * G.GRID_X + G.GRID_X + G.GRID_X ≤ G.GRID_X * G.GRID_Y := by
    have : (G.GRID_Y - (cellY G pt + 2)) * G.GRID_X ≥ 0 := by
      apply mul_nonneg <;> omega
    nlinarith
  have r0 : 0 ≤ cellY G pt * G.GRID_X := by positivity
  have e1 : (cellY G pt + 1) * G.GRID_X = cellY G pt * G.GRID_X + G.GRID_X := by ring
  have m1 : imul (cellY G pt) G.GRID_X = cellY G pt * G.GRID_X :=
    imul_eq _ _ r0 (by omega)
  have s1 : iadd (cellY G pt) 1 = cellY G pt + 1 := iadd_eq _ _ (by omega) (by omega)
  have s2 : iadd (cellX G pt) 1 = cellX G pt + 1 := iadd_eq _ _ (by omega) (by omega)
  have m2 : imul (cellY G pt + 1) G.GRID_X = (cellY G pt + 1) * G.GRID_X :=
    imul_eq _ _ (by rw [e1]; omega) (by rw [e1]; omega)
  unfold p1 p2 p3 p4
  rw [s1, s2, m1, m2]
  refine ⟨?_, ?_, ?_, ?_⟩
  · exact iadd_eq _ _ (by omega) (by omega)
  · exact iadd_eq _ _ (by omega) (by omega)
  · exact iadd_eq _ _ (by rw [e1]; omega) (by rw [e1]; omega)
  · exact iadd_eq _ _ (by rw [e1]; omega) (by rw [e1]; omega)

/-- Each corner index of a deposited point lies inside one mesh. -/
theorem corner_bounds (G : Globals) (h : Fits G) (pt : Points) (hns : ¬ skipped G pt) :
    (0 ≤ p1 G pt ∧ p1 G pt < G.GRID_X * G.GRID_Y) ∧
    (0 ≤ p2 G pt ∧ p2 G pt < G.GRID_X * G.GRID_Y) ∧
    (0 ≤ p3 G pt ∧ p3 G pt < G.GRID_X * G.GRID_Y) ∧
    (0 ≤ p4 G pt ∧ p4 G pt < G.GRID_X * G.GRID_Y) := by
  obtain ⟨hx0, hx1, hy0, hy1⟩ := (not_skipped_iff G h pt).1 hns
  obtain ⟨e1, e2, e3, e4⟩ := corner_eq G h pt hns
  rw [e1, e2, e3, e4, h.hX, h.hY]
  refine ⟨?_, ?_, ?_, ?_⟩
  · exact node_index_bounds G.NX G.NY _ _ hy0 (by omega) hx0 (by omega)
  · exact node_index_bounds G.NX G.NY _ _ hy0 (by omega) (by omega) (by omega)
  · exact node_index_bounds G.NX G.NY _ _ (by omega) (by omega) hx0 (by omega)
  · exact node_index_bounds G.NX G.NY _ _ (by omega) (by omega) (by omega) (by omega)

/-- The four corner indices of a deposited point are pairwise distinct. -/
theorem corner_distinct (G : Globals) (h : Fits G) (pt : Points) (hns : ¬ skipped G pt) :
    p1 G pt ≠ p2 G pt ∧ p1 G pt ≠ p3 G pt ∧ p1 G pt ≠ p4 G pt ∧
    p2 G pt ≠ p3 G pt ∧ p2 G pt ≠ p4 G pt ∧ p3 G pt ≠ p4 G pt := by
  obtain ⟨hx0, hx1, hy0, hy1⟩ := (not_skipped_iff G h pt).1 hns
  obtain ⟨e1, e2, e3, e4⟩ := corner_eq G h pt hns
  rw [e1, e2, e3, e4, h.hX]
  have e : (cellY G pt + 1) * (G.NX + 1) = cellY G pt * (G.NX + 1) + (G.NX + 1) := by ring
  rw [e]
  refine ⟨?_, ?_, ?_, ?_, ?_, ?_⟩ <;> omega

/-! ## Sums over index ranges -/

theorem sum_range_ite (N a : Nat) (f : Nat → ℚ) :
    ((List.range N).map fun j => if j = a then f j else 0).sum = if a < N then f a else 0 := by
  induction N with
  | zero => simp
  | succ N ih =>
    rw [List.range_succ, List.map_append, List.sum_append, ih]
    by_cases h1 : a < N
    · have h2 : N ≠ a := by omega
      have h3 : a < N + 1 := by omega
      simp [h1, h2, h3]
    · by_cases h2 : N = a
      · subst h2
        simp
      · have h3 : ¬ a < N + 1 := by omega
        simp [h1, h2, h3]

theorem sum_range_int_ite (N : Nat) (a : Int) (c : ℚ) (h0 : 0 ≤ a) (h1 : a < (N : Int)) :
    ((List.range N).map fun (k : Nat) => if (k : Int) = a then c else 0).sum = c := by
  have e : ∀ k : Nat, (((k : Nat) : Int) = a) ↔ k = a.toNat := by
    intro k; constructor <;> intro h <;> omega
  simp only [e]
  rw [sum_range_ite N a.toNat (fun _ => c)]
  have : a.toNat < N := by omega
  simp [this]

/-! ## The deposition loop -/

theorem depositPoint_spec (G : Globals) (h : Fits G) (tid : Int) (ht0 : 0 ≤ tid)
    (ht1 : tid < G.NTHR_C) (m : List ℚ)
    (hm : (m.length : Int) = G.GRID_X * G.GRID_Y * G.NTHR_C) (pt : Points) :
    ∃ r, depositPoint G tid m pt = some r ∧ r.length = m.length ∧
      ∀ n, valueAt r n = valueAt m n + pointContribution G pt (n - tid * G.GRID_X * G.GRID_Y) := by
  by_cases hs : skipped G pt
  · exact ⟨m, by simp [depositPoint, hs], rfl, by simp [pointContribution, hs]⟩
  · obtain ⟨b1, b2, b3, b4⟩ := corner_bounds G h pt hs
    have hoff := h.sliceOffset_eq tid ht0 ht1
    have off : tid * G.GRID_X * G.GRID_Y = tid * (G.GRID_X * G.GRID_Y) := by ring
    have i1 := slice_index_bounds _ _ tid _ b1.1 b1.2 ht0 ht1
    have i2 := slice_index_bounds _ _ tid _ b2.1 b2.2 ht0 ht1
    have i3 := slice_index_bounds _ _ tid _ b3.1 b3.2 ht0 ht1
    have i4 := slice_index_bounds _ _ tid _ b4.1 b4.2 ht0 ht1
    rw [← off, ← hm] at i1 i2 i3 i4
    obtain ⟨m1, e1, l1, v1⟩ := addAt_spec m _ (a1 G pt * weighing) i1.1 i1.2
    obtain ⟨m2, e2, l2, v2⟩ :=
      addAt_spec m1 _ (a2 G pt * weighing) i2.1 (by rw [l1]; exact i2.2)
    obtain ⟨m3, e3, l3, v3⟩ :=
      addAt_spec m2 _ (a3 G pt * weighing) i3.1 (by rw [l2, l1]; exact i3.2)
    obtain ⟨m4, e4, l4, v4⟩ :=
      addAt_spec m3 _ (a4 G pt * weighing) i4.1 (by rw [l3, l2, l1]; exact i4.2)
    refine ⟨m4, by simp [depositPoint, hs, hoff, e1, e2, e3, e4], by omega, ?_⟩
    intro n
    rw [v4, v3, v2, v1]
    have c1 : (n = tid * G.GRID_X * G.GRID_Y + p1 G pt) ↔
        (n - tid * G.GRID_X * G.GRID_Y = p1 G pt) := by constructor <;> intro h <;> omega
    have c2 : (n = tid * G.GRID_X * G.GRID_Y + p2 G pt) ↔
        (n - tid * G.GRID_X * G.GRID_Y = p2 G pt) := by constructor <;> intro h <;> omega
    have c3 : (n = tid * G.GRID_X * G.GRID_Y + p3 G pt) ↔
        (n - tid * G.GRID_X * G.GRID_Y = p3 G pt) := by constructor <;> intro h <;> omega
    have c4 : (n = tid * G.GRID_X * G.GRID_Y + p4 G pt) ↔
        (n - tid * G.GRID_X * G.GRID_Y = p4 G pt) := by constructor <;> intro h <;> omega
    simp only [pointContribution, hs, if_false, c1, c2, c3, c4, weighing, mul_one]
    ring

theorem getElem?_eq_getD (points : List Points) (i : Nat) (hi : i < points.length)
    (d : Points) : points[i]? = some (points.getD i d) := by
  simp [List.getD_eq_getElem?_getD, List.getElem?_eq_getElem hi]

/-- A run of deposition iterations `is`, iteration `i` by thread `sched i`. -/
theorem runTrace_deposits (G : Globals) (h : Fits G) (points : List Points)
    (sched : Nat → Int) (mesh : List ℚ) (is : List Nat) :
    ∀ priv : List ℚ, (priv.length : Int) = G.GRID_X * G.GRID_Y * G.NTHR_C →
      (∀ i ∈ is, i < points.length ∧ 0 ≤ sched i ∧ sched i < G.NTHR_C) →
      ∃ r, runTrace G points (is.map fun (i : Nat) => Event.deposit (sched i) i) (priv, mesh)
          = some (r, mesh) ∧ r.length = priv.length ∧
        ∀ n, valueAt r n = valueAt priv n +
          (is.map fun (i : Nat) => pointContribution G (points.getD i ⟨0, 0⟩)
            (n - sched i * G.GRID_X * G.GRID_Y)).sum := by
  induction is with
  | nil =>
    intro priv _ _
    exact ⟨priv, rfl, rfl, by simp⟩
  | cons i is ih =>
    intro priv hp hs
    obtain ⟨hi, ht0, ht1⟩ := hs i (by simp)
    obtain ⟨m1, e1, l1, v1⟩ :=
      depositPoint_spec G h (sched i) ht0 ht1 priv hp (points.getD i ⟨0, 0⟩)
    obtain ⟨r, e2, l2, v2⟩ := ih m1 (by rw [l1]; exact hp)
      (fun k hk => hs k (by simp [hk]))
    have hstep : step G points (priv, mesh) (Event.deposit (sched i) i) = some (m1, mesh) := by
      show (points[i]?).bind (fun pt =>
        (depositPoint G (sched i) priv pt).bind fun p => some (p, mesh)) = some (m1, mesh)
      rw [getElem?_eq_getD points i hi ⟨0, 0⟩, Option.some_bind, e1]
      rfl
    refine ⟨r, by simp [runTrace, hstep, e2], by omega, ?_⟩
    intro n
    rw [v2, v1]
    simp only [List.map_cons, List.sum_cons]
    ring

/-! ## The merge loop -/

theorem mergeNode_spec (G : Globals) (h : Fits G) (priv : List ℚ)
    (hp : (priv.length : Int) = G.GRID_X * G.GRID_Y * G.NTHR_C)
    (j : Int) (hj0 : 0 ≤ j) (hj1 : j < G.GRID_X * G.GRID_Y) (ks : List Nat) :
    ∀ mesh : List ℚ, j < (mesh.length : Int) → (∀ k ∈ ks, (k : Int) < G.NTHR_C) →
      ∃ r, mergeNode G priv j ks mesh = some r ∧ r.length = mesh.length ∧
        ∀ n, valueAt r n = valueAt mesh n + if n = j then threadSum G priv ks j else 0 := by
  induction ks with
  | nil =>
    intro mesh _ _
    exact ⟨mesh, rfl, rfl, by simp [threadSum]⟩
  | cons k ks ih =>
    intro mesh hlen hks
    have hk : (k : Int) < G.NTHR_C := hks k (by simp)
    have hoff := h.sliceOffset_eq (k : Int) (by omega) hk
    have off : (k : Int) * G.GRID_X * G.GRID_Y = (k : Int) * (G.GRID_X * G.GRID_Y) := by ring
    have ib := slice_index_bounds _ _ (k : Int) j hj0 hj1 (by omega) hk
    have hsz := h.hsize
    have hidx : iadd (sliceOffset G (k : Int)) j = (k : Int) * G.GRID_X * G.GRID_Y + j := by
      rw [hoff]
      exact iadd_eq _ _ (by rw [off]; exact ib.1) (by rw [off]; omega)
    rw [← off, ← hp] at ib
    have er := readAt_spec priv _ ib.1 ib.2
    obtain ⟨m1, e1, l1, v1⟩ := addAt_spec mesh j
      (valueAt priv ((k : Int) * G.GRID_X * G.GRID_Y + j)) hj0 hlen
    obtain ⟨r, e2, l2, v2⟩ := ih m1 (by rw [l1]; exact hlen)
      (fun k' hk' => hks k' (by simp [hk']))
    refine ⟨r, by simp [mergeNode, hidx, er, e1, e2], by omega, ?_⟩
    intro n
    rw [v2, v1]
    by_cases hn : n = j
    · simp [hn, threadSum]
      ring
    · simp [hn]

/-- A run of merge iterations `js`, iteration `j` by thread `msched j`. -/
theorem runTrace_merges (G : Globals) (h : Fits G) (points : List Points)
    (msched : Nat → Int) (priv : List ℚ)
    (hp : (priv.length : Int) = G.GRID_X * G.GRID_Y * G.NTHR_C) (js : List Nat) :
    ∀ mesh : List ℚ, (mesh.length : Int) = G.GRID_X * G.GRID_Y →
      (∀ j ∈ js, (j : Int) < G.GRID_X * G.GRID_Y) →
      ∃ r, runTrace G points (js.map fun (j : Nat) => Event.merge (msched j) j) (priv, mesh)
          = some (priv, r) ∧ r.length = mesh.length ∧
        ∀ n : Nat, valueAt r (n : Int) = valueAt mesh (n : Int) +
          (js.map fun (j : Nat) => if j = n then
            threadSum G priv (List.range G.NTHR_C.toNat) (j : Int) else 0).sum := by
  induction js with
  | nil =>
    intro mesh _ _
    exact ⟨mesh, rfl, rfl, by simp⟩
  | cons j js ih =>
    intro mesh hlen hjs
    have hj : (j : Int) < G.GRID_X * G.GRID_Y := hjs j (by simp)
    obtain ⟨m1, e1, l1, v1⟩ := mergeNode_spec G h priv hp (j : Int) (by omega) hj
      (List.range G.NTHR_C.toNat) mesh (by rw [hlen]; exact hj)
      (by intro k hk; have := List.mem_range.1 hk; omega)
    obtain ⟨r, e2, l2, v2⟩ := ih m1 (by rw [l1]; exact hlen)
      (fun j' hj' => hjs j' (by simp [hj']))
    have hstep : step G points (priv, mesh) (Event.merge (msched j) j) = some (priv, m1) := by
      simp [step, e1]
    refine ⟨r, by simp [runTrace, hstep, e2], by omega, ?_⟩
    intro n
    rw [v2, v1]
    by_cases hn : (n : Int) = (j : Int)
    · have hn' : j = n := by omega
      subst hn'
      simp
      ring
    · have hn' : j ≠ n := by omega
      simp [hn, hn']

theorem runTrace_append (G : Globals) (points : List Points) (es fs : List Event) :
    ∀ s, runTrace G points (es ++ fs) s = (runTrace G points es s).bind (runTrace G points fs) := by
  induction es with
  | nil => intro s; rfl
  | cons e es ih =>
    intro s
    simp only [List.cons_append, runTrace]
    cases step G points s e with
    | none => rfl
    | some s1 => simpa using ih s1

/-! ## Collapsing the thread slices -/

theorem pointContribution_slice (G : Globals) (h : Fits G) (pt : Points) (a k tid : Int)
    (ha0 : 0 ≤ a) (ha1 : a < G.GRID_X * G.GRID_Y) :
    pointContribution G pt (k * G.GRID_X * G.GRID_Y + a - tid * G.GRID_X * G.GRID_Y) =
      if k = tid then pointContribution G pt a else 0 := by
  by_cases hs : skipped G pt
  · simp [pointContribution, hs]
  · obtain ⟨b1, b2, b3, b4⟩ := corner_bounds G h pt hs
    have e : k * G.GRID_X * G.GRID_Y + a - tid * G.GRID_X * G.GRID_Y =
        k * (G.GRID_X * G.GRID_Y) + a - tid * (G.GRID_X * G.GRID_Y) := by ring
    have c1 := slice_index_unique (G.GRID_X * G.GRID_Y) k tid a _ ha0 ha1 b1.1 b1.2
    have c2 := slice_index_unique (G.GRID_X * G.GRID_Y) k tid a _ ha0 ha1 b2.1 b2.2
    have c3 := slice_index_unique (G.GRID_X * G.GRID_Y) k tid a _ ha0 ha1 b3.1 b3.2
    have c4 := slice_index_unique (G.GRID_X * G.GRID_Y) k tid a _ ha0 ha1 b4.1 b4.2
    rw [e]
    simp only [pointContribution, hs, if_false, c1, c2, c3, c4]
    by_cases hk : k = tid
    · simp [hk]
    · simp [hk]

theorem slices_collapse (G : Globals) (h : Fits G) (points : List Points)
    (sched : Nat → Int) (a : Int) (ha0 : 0 ≤ a) (ha1 : a < G.GRID_X * G.GRID_Y)
    (is : List Nat) (hs : ∀ i ∈ is, 0 ≤ sched i ∧ sched i < G.NTHR_C) :
    ((List.range G.NTHR_C.toNat).map fun (k : Nat) =>
      (is.map fun (i : Nat) => pointContribution G (points.getD i ⟨0, 0⟩)
        ((k : Int) * G.GRID_X * G.GRID_Y + a - sched i * G.GRID_X * G.GRID_Y)).sum).sum =
      (is.map fun (i : Nat) => pointContribution G (points.getD i ⟨0, 0⟩) a).sum := by
  induction is with
  | nil => simp
  | cons i is ih =>
    have h0 := hs i (by simp)
    have hrest := ih (fun k hk => hs k (by simp [hk]))
    simp only [List.map_cons, List.sum_cons, List.sum_map_add, hrest]
    simp only [pointContribution_slice G h _ a _ (sched i) ha0 ha1]
    rw [sum_range_int_ite G.NTHR_C.toNat (sched i) _ h0.1 (by omega)]

theorem map_range_getD (points : List Points) (f : Points → ℚ) :
    ((List.range points.length).map fun (i : Nat) => f (points.getD i ⟨0, 0⟩)) =
      points.map f := by
  apply List.ext_getElem
  · simp
  · intro n h1 h2
    have hn : n < points.length := by simpa using h1
    simp [List.getD_eq_getElem?_getD, List.getElem?_eq_getElem hn]

/-! ## The whole call -/

theorem eq_of_valueAt (l1 l2 : List ℚ) (hl : l1.length = l2.length)
    (hv : ∀ n : Nat, n < l1.length → valueAt l1 (n : Int) = valueAt l2 (n : Int)) :
    l1 = l2 := by
  apply List.ext_getElem hl
  intro n h1 h2
  have := hv n h1
  simpa [valueAt, List.getD_eq_getElem?_getD, List.getElem?_eq_getElem h1,
    List.getElem?_eq_getElem h2] using this

theorem expectedMesh_length (G : Globals) (points : List Points) :
    (expectedMesh G points).length = (G.GRID_X * G.GRID_Y).toNat := by
  simp [expectedMesh]

theorem valueAt_expectedMesh (G : Globals) (points : List Points) (n : Nat)
    (hn : n < (G.GRID_X * G.GRID_Y).toNat) :
    valueAt (expectedMesh G points) (n : Int) = batchContribution G points (n : Int) := by
  simp [valueAt, expectedMesh, List.getD_eq_getElem?_getD, List.getElem?_map,
    List.getElem?_range hn]

theorem memsetZero_full (mesh : List ℚ) (S : Int) (h : (mesh.length : Int) = S) :
    memsetZero mesh S = some (calloc S) := by
  have h1 : 0 ≤ S := by omega
  have h2 : S.toNat = mesh.length := by omega
  have h3 : S ≤ (mesh.length : Int) := by omega
  simp [memsetZero, calloc, h1, h3, h2]

theorem calloc_length (S : Int) (hS : 0 ≤ S) : ((calloc S).length : Int) = S := by
  simp [calloc, Int.toNat_of_nonneg hS]

/-- When every merge iteration follows every deposition iteration, the call
returns the mesh determined by the batch alone: node `j` holds the sum of the
corner weights the deposited points send to `j`, whatever `meshValue` held,
whatever the number of threads and the distribution of iterations over them. -/
theorem interpolation_barrier (G : Globals) (h : Fits G) (sched msched : Nat → Int)
    (mesh : List ℚ) (points : List Points)
    (hmesh : (mesh.length : Int) = G.GRID_X * G.GRID_Y)
    (hs : ∀ i, i < points.length → 0 ≤ sched i ∧ sched i < G.NTHR_C) :
    interpolation G (barrierTrace sched msched points.length (G.GRID_X * G.GRID_Y).toNat)
      mesh points = some (expectedMesh G points) := by
  have hS : 0 ≤ G.GRID_X * G.GRID_Y := le_of_lt h.nodes_pos
  have hT := h.hT
  have hST : 0 ≤ G.GRID_X * G.GRID_Y * G.NTHR_C := by positivity
  have hcl := calloc_length _ hST
  have hc0 := calloc_length _ hS
  obtain ⟨priv, e1, l1, v1⟩ := runTrace_deposits G h points sched
    (calloc (G.GRID_X * G.GRID_Y)) (List.range points.length) _ hcl
    (by intro i hi; have hi' := List.mem_range.1 hi; exact ⟨hi', hs i hi'⟩)
  have hp : (priv.length : Int) = G.GRID_X * G.GRID_Y * G.NTHR_C := by rw [l1]; exact hcl
  obtain ⟨r, e2, l2, v2⟩ := runTrace_merges G h points msched priv hp
    (List.range (G.GRID_X * G.GRID_Y).toNat) (calloc (G.GRID_X * G.GRID_Y)) hc0
    (by intro j hj; have := List.mem_range.1 hj; omega)
  have hr : r = expectedMesh G points := by
    apply eq_of_valueAt
    · rw [l2, expectedMesh_length]; simp [calloc]
    · intro n hn
      have hn' : n < (G.GRID_X * G.GRID_Y).toNat := by
        rw [l2] at hn; simpa [calloc] using hn
      rw [v2 n, valueAt_calloc, valueAt_expectedMesh G points n hn', zero_add,
        sum_range_ite _ n
          (fun (j : Nat) => threadSum G priv (List.range G.NTHR_C.toNat) (j : Int)),
        if_pos hn']
      unfold threadSum
      simp only [v1, valueAt_calloc, zero_add]
      rw [slices_collapse G h points sched (n : Int) (by omega) (by omega)
        (List.range points.length)
        (by intro i hi; exact hs i (List.mem_range.1 hi))]
      rw [map_range_getD points (fun pt => pointContribution G pt (n : Int))]
      rfl
  unfold interpolation barrierTrace
  rw [h.imul_size, h.imul_grid, memsetZero_full mesh _ hmesh, Option.some_bind,
    runTrace_append, e1, Option.some_bind, e2, Option.some_bind, hr]

theorem fits_mainGlobals (NX NY T : Int) (hNX : 1 ≤ NX) (hNY : 1 ≤ NY) (hT : 1 ≤ T)
    (hsize : (NX + 1) * (NY + 1) * T ≤ 2147483647) : Fits (mainGlobals NX NY T) :=
  ⟨rfl, rfl, hNX, hNY, hT, hsize⟩

theorem valueAt_expectedMesh_int (G : Globals) (points : List Points) (j : Int) :
    valueAt (expectedMesh G points) j =
      if 0 ≤ j ∧ j < G.GRID_X * G.GRID_Y then batchContribution G points j else 0 := by
  by_cases h0 : 0 ≤ j
  · by_cases h1 : j < G.GRID_X * G.GRID_Y
    · have hn : j.toNat < (G.GRID_X * G.GRID_Y).toNat := by omega
      have := valueAt_expectedMesh G points j.toNat hn
      rw [Int.toNat_of_nonneg h0] at this
      simp [this, h0, h1]
    · have : ((expectedMesh G points).length : Int) ≤ j := by
        rw [expectedMesh_length]; omega
      simp [valueAt_of_length_le _ _ this, h1]
  · simp [valueAt, h0]

theorem weights_sum (G : Globals) (pt : Points) :
    a1 G pt + a2 G pt + a3 G pt + a4 G pt = G.dx * G.dy := by
  unfold a1 a2 a3 a4
  ring

/-- Summed over all nodes, a point contributes `dx * dy` when deposited and
nothing when skipped. -/
theorem sum_pointContribution (G : Globals) (h : Fits G) (pt : Points) :
    ((List.range (G.GRID_X * G.GRID_Y).toNat).map fun (j : Nat) =>
      pointContribution G pt (j : Int)).sum = if skipped G pt then 0 else G.dx * G.dy := by
  by_cases hs : skipped G pt
  · simp [pointContribution, hs]
  · obtain ⟨b1, b2, b3, b4⟩ := corner_bounds G h pt hs
    simp only [pointContribution, hs, if_false, List.sum_map_add]
    rw [sum_range_int_ite _ (p1 G pt) _ b1.1 (by omega),
      sum_range_int_ite _ (p2 G pt) _ b2.1 (by omega),
      sum_range_int_ite _ (p3 G pt) _ b3.1 (by omega),
      sum_range_int_ite _ (p4 G pt) _ b4.1 (by omega)]
    exact weights_sum G pt

/-- The mesh determined by a batch sums to `dx * dy` times the number of
deposited points: what the call returns when merge follows deposition. -/
theorem sum_expectedMesh (G : Globals) (h : Fits G) (points : List Points) :
    (expectedMesh G points).sum =
      G.dx * G.dy * ((points.filter fun pt => decide (¬ skipped G pt)).length : ℚ) := by
  unfold expectedMesh
  induction points with
  | nil => simp [batchContribution]
  | cons pt rest ih =>
    have e : ∀ j : Nat, batchContribution G (pt :: rest) (j : Int) =
        pointContribution G pt (j : Int) + batchContribution G rest (j : Int) := by
      intro j; simp [batchContribution]
    simp only [e, List.sum_map_add, ih, sum_pointContribution G h pt]
    by_cases hs : skipped G pt
    · simp [hs]
    · simp [hs]
      ring

/-- The mesh determined by a one-point batch with a deposited point: each node
holds the corner weights addressed to it. -/
theorem valueAt_single (G : Globals) (h : Fits G) (pt : Points) (hns : ¬ skipped G pt)
    (j : Int) :
    valueAt (expectedMesh G [pt]) j =
      (if j = p1 G pt then a1 G pt else 0) + (if j = p2 G pt then a2 G pt else 0) +
      (if j = p3 G pt then a3 G pt else 0) + (if j = p4 G pt then a4 G pt else 0) := by
  obtain ⟨b1, b2, b3, b4⟩ := corner_bounds G h pt hns
  have hb : batchContribution G [pt] j = pointContribution G pt j := by
    simp [batchContribution]
  rw [valueAt_expectedMesh_int, hb]
  by_cases hj : 0 ≤ j ∧ j < G.GRID_X * G.GRID_Y
  · rw [if_pos hj]
    simp [pointContribution, hns]
  · rw [if_neg hj]
    have n1 : j ≠ p1 G pt := by rintro rfl; exact hj b1
    have n2 : j ≠ p2 G pt := by rintro rfl; exact hj b2
    have n3 : j ≠ p3 G pt := by rintro rfl; exact hj b3
    have n4 : j ≠ p4 G pt := by rintro rfl; exact hj b4
    simp [n1, n2, n3, n4]

/-! ## Claims -/

/-- C1 (as stated, refuted): on the 2x2-cell grid with batch `[(0.25, 0.25)]` and
one thread, node (0,0) holds 0.0625 after one call on the zero grid and still
0.0625, not 0.125, after a second call on the result; started from the all-ones
grid the node also ends at 0.0625 instead of 1.0625. -/
theorem C1_counterexample :
    interpolation (mainGlobals 2 2 1) (singleThreadTrace 1 9) (List.replicate 9 0)
        [⟨1/4, 1/4⟩]
      = some [1/16, 1/16, 0, 1/16, 1/16, 0, 0, 0, 0] ∧
    interpolation (mainGlobals 2 2 1) (singleThreadTrace 1 9)
        [1/16, 1/16, 0, 1/16, 1/16, 0, 0, 0, 0] [⟨1/4, 1/4⟩]
      = some [1/16, 1/16, 0, 1/16, 1/16, 0, 0, 0, 0] ∧
    valueAt [1/16, 1/16, 0, 1/16, 1/16, 0, 0, 0, 0] (node (mainGlobals 2 2 1) 0 0)
      ≠ 2 * (1/16) ∧
    interpolation (mainGlobals 2 2 1) (singleThreadTrace 1 9) (List.replicate 9 1)
        [⟨1/4, 1/4⟩]
      = some [1/16, 1/16, 0, 1/16, 1/16, 0, 0, 0, 0] ∧
    valueAt [1/16, 1/16, 0, 1/16, 1/16, 0, 0, 0, 0] (node (mainGlobals 2 2 1) 0 0)
      ≠ valueAt (List.replicate 9 1) (node (mainGlobals 2 2 1) 0 0) + 1/16 := by
  decide!

/-- C1 (amended): with one thread, `interpolation` overwrites the grid it is
given.  For `NX, NY ≥ 1` with `GRID_X * GRID_Y` inside the `int` range, every
grid `g` of `GRID_X * GRID_Y` nodes, every batch `b` and every node `j`, the
call returns a grid of the same size whose value at `j` is the sum of the corner
weights that the non-skipped points of `b` contribute to `j`, whatever `g` held;
and calling it again with the same batch on that result returns the same grid. -/
theorem C1_interpolation_overwrites (NX NY : Int) (g : List ℚ) (b : List Points)
    (hNX : 1 ≤ NX) (hNY : 1 ≤ NY) (hsize : (NX + 1) * (NY + 1) ≤ 2147483647)
    (hg : (g.length : Int) = (NX + 1) * (NY + 1)) :
    ∃ out, interpolation (mainGlobals NX NY 1) (singleThreadTrace b.length g.length) g b
        = some out ∧
      out.length = g.length ∧
      (∀ j : Int, 0 ≤ j → j < (NX + 1) * (NY + 1) →
        valueAt out j = batchContribution (mainGlobals NX NY 1) b j) ∧
      interpolation (mainGlobals NX NY 1) (singleThreadTrace b.length g.length) out b
        = some out := by
  have hfit : Fits (mainGlobals NX NY 1) :=
    fits_mainGlobals NX NY 1 hNX hNY (le_refl 1) (by omega)
  have hn : g.length = ((mainGlobals NX NY 1).GRID_X * (mainGlobals NX NY 1).GRID_Y).toNat := by
    show g.length = ((NX + 1) * (NY + 1)).toNat
    omega
  have hsched : ∀ i, i < b.length →
      0 ≤ (fun _ : Nat => (0 : Int)) i ∧ (fun _ : Nat => (0 : Int)) i < (mainGlobals NX NY 1).NTHR_C :=
    fun _ _ => ⟨le_refl 0, Int.zero_lt_one⟩
  have h1 := interpolation_barrier (mainGlobals NX NY 1) hfit (fun _ => 0) (fun _ => 0) g b
    hg hsched
  have hl : (expectedMesh (mainGlobals NX NY 1) b).length = g.length := by
    rw [expectedMesh_length, ← hn]
  have h2 := interpolation_barrier (mainGlobals NX NY 1) hfit (fun _ => 0) (fun _ => 0)
    (expectedMesh (mainGlobals NX NY 1) b) b (by rw [hl]; exact hg) hsched
  rw [← hn] at h1 h2
  refine ⟨_, h1, hl, ?_, h2⟩
  intro j hj0 hj1
  rw [valueAt_expectedMesh_int]
  have : 0 ≤ j ∧ j < (mainGlobals NX NY 1).GRID_X * (mainGlobals NX NY 1).GRID_Y :=
    ⟨hj0, hj1⟩
  rw [if_pos this]

/-- Witness for C1 (amended): the all-ones 3x3 grid and the batch
`[(0.25, 0.25)]`. -/
theorem C1_interpolation_overwrites_witness :
    ∃ out, interpolation (mainGlobals 2 2 1)
        (singleThreadTrace ([⟨1/4, 1/4⟩] : List Points).length
          (List.replicate 9 (1 : ℚ)).length)
        (List.replicate 9 1) [⟨1/4, 1/4⟩] = some out ∧
      out.length = (List.replicate 9 (1 : ℚ)).length ∧
      (∀ j : Int, 0 ≤ j → j < (2 + 1) * (2 + 1) →
        valueAt out j = batchContribution (mainGlobals 2 2 1) [⟨1/4, 1/4⟩] j) ∧
      interpolation (mainGlobals 2 2 1)
        (singleThreadTrace ([⟨1/4, 1/4⟩] : List Points).length
          (List.replicate 9 (1 : ℚ)).length)
        out [⟨1/4, 1/4⟩] = some out :=
  C1_interpolation_overwrites 2 2 (List.replicate 9 1) [⟨1/4, 1/4⟩]
    (by decide) (by decide) (by decide) (by decide)

/-- C2 (code evaluated at the failing input): on the 2x2-cell grid the point
`(0.9, 0.9)` has cell indices `gx = gy = 1 = NX - 1`, the test on line 61 skips
it, and the call leaves every node at zero. -/
theorem C2_last_cell_skipped :
    cellX (mainGlobals 2 2 1) ⟨9/10, 9/10⟩ = 1 ∧
    cellY (mainGlobals 2 2 1) ⟨9/10, 9/10⟩ = 1 ∧
    skipped (mainGlobals 2 2 1) ⟨9/10, 9/10⟩ ∧
    interpolation (mainGlobals 2 2 1) (singleThreadTrace 1 9) (List.replicate 9 0)
        [⟨9/10, 9/10⟩]
      = some [0, 0, 0, 0, 0, 0, 0, 0, 0] := by
  decide!

/-- C3 (code evaluated at the failing input): on the 4x4-cell grid the point
`(-0.125, 0.125)` has `x < 0`, yet `(int)(x / dx) = (int)(-0.5) = 0`, the point
is not skipped, and the call changes nodes 0, 1, 5 and 6 (two of them by a
negative amount). -/
theorem C3_negative_coordinate_deposited :
    (⟨-1/8, 1/8⟩ : Points).x < 0 ∧
    cellX (mainGlobals 4 4 1) ⟨-1/8, 1/8⟩ = 0 ∧
    ¬ skipped (mainGlobals 4 4 1) ⟨-1/8, 1/8⟩ ∧
    interpolation (mainGlobals 4 4 1) (singleThreadTrace 1 25) (List.replicate 25 0)
        [⟨-1/8, 1/8⟩]
      = some [3/64, -1/64, 0, 0, 0, 3/64, -1/64, 0, 0, 0, 0, 0, 0, 0, 0, 0, 0, 0, 0, 0,
          0, 0, 0, 0, 0] ∧
    interpolation (mainGlobals 4 4 1) (singleThreadTrace 0 25) (List.replicate 25 0) []
      = some (List.replicate 25 0) := by
  decide!

/-- C4 (code evaluated at the failing input): on the 2x2-cell grid with batch
`[(0.25, 0.25)]` and two threads, the execution in which thread 0 merges nodes 0
to 4 before thread 1 has deposited is an admissible one (no barrier follows the
`nowait` loop), and it returns the all-zero grid, while the one-thread call
returns 0.0625 at nodes 0, 1, 3 and 4. -/
theorem C4_two_threads_differ :
    validTrace (mainGlobals 2 2 2) 1 (earlyMergeTrace 1 5 9) = true ∧
    validTrace (mainGlobals 2 2 1) 1 (singleThreadTrace 1 9) = true ∧
    interpolation (mainGlobals 2 2 2) (earlyMergeTrace 1 5 9) (List.replicate 9 0)
        [⟨1/4, 1/4⟩]
      = some [0, 0, 0, 0, 0, 0, 0, 0, 0] ∧
    interpolation (mainGlobals 2 2 1) (singleThreadTrace 1 9) (List.replicate 9 0)
        [⟨1/4, 1/4⟩]
      = some [1/16, 1/16, 0, 1/16, 1/16, 0, 0, 0, 0] := by
  decide!

/-- C5 (code evaluated at the failing input): on the 2x2-cell grid the point
`(0.25, 0.25)` is not skipped and its four corner weights are 0.0625, yet with
two threads and thread 0 merging nodes 0 to 4 before thread 1 deposits, the call
on the all-zero grid returns 0 at the corner nodes (0,0), (0,1), (1,0), (1,1). -/
theorem C5_two_threads_lose_corners :
    validTrace (mainGlobals 2 2 2) 1 (earlyMergeTrace 1 5 9) = true ∧
    ¬ skipped (mainGlobals 2 2 2) ⟨1/4, 1/4⟩ ∧
    cellX (mainGlobals 2 2 2) ⟨1/4, 1/4⟩ = 0 ∧ cellY (mainGlobals 2 2 2) ⟨1/4, 1/4⟩ = 0 ∧
    a1 (mainGlobals 2 2 2) ⟨1/4, 1/4⟩ = 1/16 ∧ a2 (mainGlobals 2 2 2) ⟨1/4, 1/4⟩ = 1/16 ∧
    a3 (mainGlobals 2 2 2) ⟨1/4, 1/4⟩ = 1/16 ∧ a4 (mainGlobals 2 2 2) ⟨1/4, 1/4⟩ = 1/16 ∧
    (∃ out, interpolation (mainGlobals 2 2 2) (earlyMergeTrace 1 5 9)
        (calloc ((2 + 1) * (2 + 1))) [⟨1/4, 1/4⟩] = some out ∧
      valueAt out (node (mainGlobals 2 2 2) 0 0) = 0 ∧
      valueAt out (node (mainGlobals 2 2 2) 0 1) = 0 ∧
      valueAt out (node (mainGlobals 2 2 2) 1 0) = 0 ∧
      valueAt out (node (mainGlobals 2 2 2) 1 1) = 0) := by
  refine ⟨by decide!, by decide!, by decide!, by decide!, by decide!, by decide!,
    by decide!, by decide!, [0, 0, 0, 0, 0, 0, 0, 0, 0], by decide!, by decide!,
    by decide!, by decide!, by decide!⟩

/-- C6: for every point strictly inside the cell `(gx, gy)` computed for it, the
four amounts `a1 * weighing`, ..., `a4 * weighing` that the loop body adds are
non-negative and sum to `dx * dy`. -/
theorem C6_weights_nonneg_sum (G : Globals) (pt : Points)
    (hx0 : (cellX G pt : ℚ) * G.dx < pt.x) (hx1 : pt.x < ((cellX G pt : ℚ) + 1) * G.dx)
    (hy0 : (cellY G pt : ℚ) * G.dy < pt.y) (hy1 : pt.y < ((cellY G pt : ℚ) + 1) * G.dy) :
    0 ≤ a1 G pt * weighing ∧ 0 ≤ a2 G pt * weighing ∧ 0 ≤ a3 G pt * weighing ∧
    0 ≤ a4 G pt * weighing ∧
    a1 G pt * weighing + a2 G pt * weighing + a3 G pt * weighing + a4 G pt * weighing =
      G.dx * G.dy := by
  have lx0 : 0 < localX G pt := by unfold localX; linarith
  have lx1 : 0 < G.dx - localX G pt := by unfold localX; linarith
  have ly0 : 0 < localY G pt := by unfold localY; linarith
  have ly1 : 0 < G.dy - localY G pt := by unfold localY; linarith
  simp only [weighing, mul_one]
  refine ⟨?_, ?_, ?_, ?_, weights_sum G pt⟩
  · exact le_of_lt (mul_pos lx1 ly1)
  · exact le_of_lt (mul_pos lx0 ly1)
  · exact le_of_lt (mul_pos lx1 ly0)
  · exact le_of_lt (mul_pos lx0 ly0)

/-- Witness for C6: the 2x2-cell grid and the point `(0.25, 0.25)`, interior to
cell (0,0). -/
theorem C6_weights_nonneg_sum_witness :
    0 ≤ a1 (mainGlobals 2 2 1) ⟨1/4, 1/4⟩ * weighing ∧
    0 ≤ a2 (mainGlobals 2 2 1) ⟨1/4, 1/4⟩ * weighing ∧
    0 ≤ a3 (mainGlobals 2 2 1) ⟨1/4, 1/4⟩ * weighing ∧
    0 ≤ a4 (mainGlobals 2 2 1) ⟨1/4, 1/4⟩ * weighing ∧
    a1 (mainGlobals 2 2 1) ⟨1/4, 1/4⟩ * weighing + a2 (mainGlobals 2 2 1) ⟨1/4, 1/4⟩ * weighing +
      a3 (mainGlobals 2 2 1) ⟨1/4, 1/4⟩ * weighing + a4 (mainGlobals 2 2 1) ⟨1/4, 1/4⟩ * weighing =
      (mainGlobals 2 2 1).dx * (mainGlobals 2 2 1).dy :=
  C6_weights_nonneg_sum (mainGlobals 2 2 1) ⟨1/4, 1/4⟩ (by decide!) (by decide!) (by decide!)
    (by decide!)

/-- C9 (as stated, refuted): for `NX = NY = 16383` and 8 threads the `int`
product `GRID_X * GRID_Y * NTHR_C` is `2^31` and wraps to `-2147483648`, so the
private buffer has no cell; the point `(0, 0)` passes the bounds check, the
shifted index of thread 0 is not below the wrapped size, and the first checked
write of the loop body fails. -/
theorem C9_counterexample :
    1 ≤ (mainGlobals 16383 16383 8).NX ∧ 1 ≤ (mainGlobals 16383 16383 8).NY ∧
    ¬ skipped (mainGlobals 16383 16383 8) ⟨0, 0⟩ ∧
    imul (imul (mainGlobals 16383 16383 8).GRID_X (mainGlobals 16383 16383 8).GRID_Y)
      (mainGlobals 16383 16383 8).NTHR_C = -2147483648 ∧
    ¬ (sliceOffset (mainGlobals 16383 16383 8) 0 + p1 (mainGlobals 16383 16383 8) ⟨0, 0⟩ <
      imul (imul (mainGlobals 16383 16383 8).GRID_X (mainGlobals 16383 16383 8).GRID_Y)
        (mainGlobals 16383 16383 8).NTHR_C) ∧
    depositPoint (mainGlobals 16383 16383 8) 0
      (calloc (imul (imul (mainGlobals 16383 16383 8).GRID_X
        (mainGlobals 16383 16383 8).GRID_Y) (mainGlobals 16383 16383 8).NTHR_C))
      ⟨0, 0⟩ = none := by
  decide!

/-- C9 (amended): for `NX, NY ≥ 1`, `NTHR_C ≥ 1` and
`GRID_X * GRID_Y * NTHR_C ≤ 2147483647`, and every point that passes the bounds
check of line 61: the `int` size and offset computations do not wrap; the four
flat indices `p1`, `p2 = p1 + 1`, `p3`, `p4 = p3 + 1` are pairwise distinct and
lie in `[0, GRID_X * GRID_Y)`; for every thread id `0 ≤ tid < NTHR_C` each index
shifted by the slice offset lies inside the private buffer, and the four checked
writes of the loop body succeed on any buffer of that size. -/
theorem C9_writes_in_bounds (NX NY T : Int) (pt : Points)
    (hNX : 1 ≤ NX) (hNY : 1 ≤ NY) (hT : 1 ≤ T)
    (hsize : (NX + 1) * (NY + 1) * T ≤ 2147483647)
    (hns : ¬ skipped (mainGlobals NX NY T) pt) :
    imul (imul (mainGlobals NX NY T).GRID_X (mainGlobals NX NY T).GRID_Y)
      (mainGlobals NX NY T).NTHR_C = (NX + 1) * (NY + 1) * T ∧
    (p1 (mainGlobals NX NY T) pt ≠ p2 (mainGlobals NX NY T) pt ∧
      p1 (mainGlobals NX NY T) pt ≠ p3 (mainGlobals NX NY T) pt ∧
      p1 (mainGlobals NX NY T) pt ≠ p4 (mainGlobals NX NY T) pt ∧
      p2 (mainGlobals NX NY T) pt ≠ p3 (mainGlobals NX NY T) pt ∧
      p2 (mainGlobals NX NY T) pt ≠ p4 (mainGlobals NX NY T) pt ∧
      p3 (mainGlobals NX NY T) pt ≠ p4 (mainGlobals NX NY T) pt) ∧
    p2 (mainGlobals NX NY T) pt = p1 (mainGlobals NX NY T) pt + 1 ∧
    p4 (mainGlobals NX NY T) pt = p3 (mainGlobals NX NY T) pt + 1 ∧
    (∀ p ∈ [p1 (mainGlobals NX NY T) pt, p2 (mainGlobals NX NY T) pt,
        p3 (mainGlobals NX NY T) pt, p4 (mainGlobals NX NY T) pt],
      0 ≤ p ∧ p < (NX + 1) * (NY + 1)) ∧
    ∀ tid : Int, 0 ≤ tid → tid < T →
      sliceOffset (mainGlobals NX NY T) tid = tid * (NX + 1) * (NY + 1) ∧
      (∀ p ∈ [p1 (mainGlobals NX NY T) pt, p2 (mainGlobals NX NY T) pt,
          p3 (mainGlobals NX NY T) pt, p4 (mainGlobals NX NY T) pt],
        0 ≤ sliceOffset (mainGlobals NX NY T) tid + p ∧
        sliceOffset (mainGlobals NX NY T) tid + p < (NX + 1) * (NY + 1) * T) ∧
      ∀ buf : List ℚ, (buf.length : Int) = (NX + 1) * (NY + 1) * T →
        ∃ r, depositPoint (mainGlobals NX NY T) tid buf pt = some r ∧
          r.length = buf.length := by
  have hfit := fits_mainGlobals NX NY T hNX hNY hT hsize
  have hb := corner_bounds (mainGlobals NX NY T) hfit pt hns
  obtain ⟨e1, e2, e3, e4⟩ := corner_eq (mainGlobals NX NY T) hfit pt hns
  have hall : ∀ p ∈ [p1 (mainGlobals NX NY T) pt, p2 (mainGlobals NX NY T) pt,
      p3 (mainGlobals NX NY T) pt, p4 (mainGlobals NX NY T) pt],
      0 ≤ p ∧ p < (NX + 1) * (NY + 1) := by
    intro p hp
    simp only [List.mem_cons, List.mem_singleton, List.not_mem_nil, or_false] at hp
    rcases hp with rfl | rfl | rfl | rfl
    · exact hb.1
    · exact hb.2.1
    · exact hb.2.2.1
    · exact hb.2.2.2
  refine ⟨hfit.imul_size, corner_distinct (mainGlobals NX NY T) hfit pt hns, ?_, ?_, hall, ?_⟩
  · rw [e1, e2]; ring
  · rw [e3, e4]; ring
  · intro tid ht0 ht1
    have hoff : sliceOffset (mainGlobals NX NY T) tid = tid * (NX + 1) * (NY + 1) :=
      hfit.sliceOffset_eq tid ht0 ht1
    refine ⟨hoff, ?_, ?_⟩
    · intro p hp
      have hpb := hall p hp
      have := slice_index_bounds ((NX + 1) * (NY + 1)) T tid p hpb.1 hpb.2 ht0 ht1
      have e : tid * (NX + 1) * (NY + 1) = tid * ((NX + 1) * (NY + 1)) := by ring
      rw [hoff, e]
      exact this
    · intro buf hbuf
      obtain ⟨r, h1, h2, _⟩ :=
        depositPoint_spec (mainGlobals NX NY T) hfit tid ht0 ht1 buf hbuf pt
      exact ⟨r, h1, h2⟩

/-- Witness for C9 (amended): the 4x4-cell grid, the point `(0.3, 0.6)` in cell
`gx = 1`, `gy = 2`, three threads. -/
theorem C9_writes_in_bounds_witness :
    ¬ skipped (mainGlobals 4 4 3) ⟨3/10, 6/10⟩ ∧
    p1 (mainGlobals 4 4 3) ⟨3/10, 6/10⟩ = 11 ∧
    ∀ tid : Int, 0 ≤ tid → tid < 3 →
      ∀ buf : List ℚ, (buf.length : Int) = (4 + 1) * (4 + 1) * 3 →
        ∃ r, depositPoint (mainGlobals 4 4 3) tid buf ⟨3/10, 6/10⟩ = some r ∧
          r.length = buf.length :=
  ⟨by decide!, by decide!, fun tid h0 h1 =>
    ((C9_writes_in_bounds 4 4 3 ⟨3/10, 6/10⟩ (by decide) (by decide) (by decide) (by decide)
      (by decide!)).2.2.2.2.2 tid h0 h1).2.2⟩

/-- C10 (code evaluated at the failing input): on the 4x4-cell grid with batch
`[(0.125, 0.125), (0.125, 0.625)]` both points pass the bounds check, so the
total should be `2 * dx * dy = 0.125`; with two threads and thread 0 merging
nodes 0 to 12 before thread 1 deposits, the call on the all-zero grid returns a
grid whose node values sum to 0.03125, while the one-thread call gives 0.125. -/
theorem C10_two_threads_lose_weight :
    validTrace (mainGlobals 4 4 2) 2 (earlyMergeTrace 2 13 25) = true ∧
    (mainGlobals 4 4 2).dx * (mainGlobals 4 4 2).dy *
      (([⟨1/8, 1/8⟩, ⟨1/8, 5/8⟩] : List Points).filter
        fun pt => decide (¬ skipped (mainGlobals 4 4 2) pt)).length = 1/8 ∧
    (∃ out, interpolation (mainGlobals 4 4 2) (earlyMergeTrace 2 13 25)
        (calloc ((4 + 1) * (4 + 1))) [⟨1/8, 1/8⟩, ⟨1/8, 5/8⟩] = some out ∧
      out.sum = 1/32) ∧
    (∃ out, interpolation (mainGlobals 4 4 1) (singleThreadTrace 2 25)
        (calloc ((4 + 1) * (4 + 1))) [⟨1/8, 1/8⟩, ⟨1/8, 5/8⟩] = some out ∧
      out.sum = 1/8) := by
  refine ⟨by decide!, by decide!,
    ⟨[0, 0, 0, 0, 0, 0, 0, 0, 0, 0, 0, 0, 0, 0, 0, 1/64, 1/64, 0, 0, 0, 0, 0, 0, 0, 0],
      by decide!, by decide!⟩,
    ⟨[1/64, 1/64, 0, 0, 0, 1/64, 1/64, 0, 0, 0, 1/64, 1/64, 0, 0, 0, 1/64, 1/64, 0, 0, 0,
        0, 0, 0, 0, 0],
      by decide!, by decide!⟩⟩

end MeshInterpolation
